import Mathlib

set_option maxHeartbeats 1000000

/-! Shallow embedding of `src/bootloader/src/bootloader.c` (MITRE eCTF 2022
bootloader design).  Flash and RAM are modelled as one flat byte-addressed
memory, exactly as the C source manipulates them through integer-cast
pointers.  UART output and flash operations are recorded as an event trace.
The external collaborators (flash driver primitives, BearSSL SHA-256 and the
BearSSL CBC cipher vtables) are not in `src/`; they are modelled from the
spec and kept abstract where the spec leaves them abstract. -/

/-- Byte-addressed memory: one flat address space of byte values. -/
abbrev Mem := Nat → Nat

/- Storage layout constants from bootloader.c.  The layout comment in the
source fixes the absolute addresses (firmware payload at 0x0002BC00,
configuration metadata at 0x0002FC00), which pins FLASH_START = 0 and
FLASH_PAGE_SIZE = 1024. -/

def FLASH_START : Nat := 0

def FLASH_PAGE_SIZE : Nat := 1024

def FIRMWARE_HASH_PTR : Nat := FLASH_START + 0x2B3B0

def FIRMWARE_METADATA_PTR : Nat := FLASH_START + 0x2B400

def FIRMWARE_SIZE_PTR : Nat := FIRMWARE_METADATA_PTR + 0

def FIRMWARE_VERSION_PTR : Nat := FIRMWARE_METADATA_PTR + 4

def FIRMWARE_RELEASE_MSG_PTR : Nat := FIRMWARE_METADATA_PTR + 8

def FIRMWARE_RELEASE_MSG_PTR2 : Nat := FIRMWARE_METADATA_PTR + FLASH_PAGE_SIZE

/-- In the source this constant carries an `(unsigned char)` cast, so the
address value is truncated to its low byte: (0x2B400 + 2048) mod 256 = 0. -/
def FIRMWARE_DATA_PTR : Nat := (FIRMWARE_METADATA_PTR + FLASH_PAGE_SIZE * 2) % 256

def FIRMWARE_STORAGE_PTR : Nat := FIRMWARE_METADATA_PTR + FLASH_PAGE_SIZE * 2

def FIRMWARE_BOOT_PTR : Nat := 0x20004000

def CONFIGURATION_METADATA_PTR : Nat := FIRMWARE_STORAGE_PTR + FLASH_PAGE_SIZE * 16

def CONFIGURATION_SIZE_PTR : Nat := CONFIGURATION_METADATA_PTR + 0

def CONFIGURATION_STORAGE_PTR : Nat := CONFIGURATION_METADATA_PTR + FLASH_PAGE_SIZE

def FRAME_OK : Nat := 0x00

def FRAME_BAD : Nat := 0x01

/-- Little-endian 32-bit read, as the ARM target reads a `uint32_t` in place. -/
def read32 (mem : Mem) (a : Nat) : Nat :=
  mem a % 256 + 256 * (mem (a + 1) % 256) + 65536 * (mem (a + 2) % 256) +
    16777216 * (mem (a + 3) % 256)

/-- Big-endian 32-bit value assembled from four received UART bytes, as the
handlers do with four `uart_readb` calls and shifts. -/
def be32 (b0 b1 b2 b3 : Nat) : Nat :=
  (b0 % 256) * 16777216 + (b1 % 256) * 65536 + (b2 % 256) * 256 + b3 % 256

/-- Modelled from the spec: the flash driver primitive `flash_write_word` programs one
32-bit word (little-endian bytes) at the given address. -/
def flash_write_word (x a : Nat) (mem : Mem) : Mem :=
  fun b =>
    if b = a then x % 256
    else if b = a + 1 then x / 256 % 256
    else if b = a + 2 then x / 65536 % 256
    else if b = a + 3 then x / 16777216 % 256
    else mem b

/-- Modelled from the spec: the flash driver primitive `flash_erase_page` resets one
page to 0xFF bytes. -/
def flash_erase_page (a : Nat) (mem : Mem) : Mem :=
  fun b => if a ≤ b ∧ b < a + FLASH_PAGE_SIZE then 0xFF else mem b

/-- Modelled from the spec: the flash driver primitive `flash_write` programs `words`
32-bit words (4 * words bytes) from the buffer to the destination address. -/
def flash_write (buf : Nat → Nat) (dst words : Nat) (mem : Mem) : Mem :=
  fun b => if dst ≤ b ∧ b < dst + 4 * words then buf (b - dst) % 256 else mem b

/-- One observable step of a handler: a flash page erase, a flash program
operation, or a byte sent to the host over UART. -/
inductive Event where
  | erase (addr : Nat)
  | program (addr : Nat)
  | sendb (b : Nat)
deriving DecidableEq

/-- `load_data` (bootloader.c:157): stream `size` bytes from the UART into
flash one page at a time.  `stream i` is byte `i` of the host payload
stream and `off` the number of bytes already consumed. -/
def load_data (stream : Nat → Nat) (off dst size : Nat) (mem : Mem) :
    Mem × List Event :=
  if size = 0 then (mem, [])
  else
    let frame_size := if size > FLASH_PAGE_SIZE then FLASH_PAGE_SIZE else size
    let buf : Nat → Nat := fun i => if i < frame_size then stream (off + i) % 256 else 0xFF
    let mem2 := flash_write buf dst (FLASH_PAGE_SIZE / 4) (flash_erase_page dst mem)
    let rest := load_data stream (off + frame_size) (dst + FLASH_PAGE_SIZE)
      (size - frame_size) mem2
    (rest.1, Event.erase dst :: Event.program dst :: Event.sendb FRAME_OK :: rest.2)
termination_by size
decreasing_by
  simp only [FLASH_PAGE_SIZE]
  split <;> omega

/-- Modelled from the spec: a BearSSL CBC block-cipher vtable, as consumed by
`do_AES_decrypt`: the reported block size, the reported log2 block size, and
the in-place `run` primitive (key bytes, IV bytes, input byte stream, byte
length, producing the output byte stream). -/
structure CbcClass where
  block_size : Nat
  log_block_size : Nat
  run : List Nat → List Nat → (Nat → Nat) → Nat → (Nat → Nat)

/-- The fixed pre-shared AES key constant `aes_key` (bootloader.c:68). -/
def aes_key : List Nat :=
  [0x1a, 0x2a, 0x3a, 0x4a, 0x5a, 0x6a, 0x7a, 0x8a,
   0x1a, 0x2a, 0x3a, 0x4a, 0x5a, 0x6a, 0x7a, 0x8a]

/-- `do_AES_decrypt` (bootloader.c:195): if either vtable reports a block size
other than 16 or a log-block-size other than 4, return without touching
memory; otherwise run CBC decryption in place over `len` bytes at `enc_data`
with the fixed key and an all-zero IV. -/
def do_AES_decrypt (ve vd : CbcClass) (enc_data len : Nat) (mem : Mem) : Mem :=
  if ve.block_size ≠ 16 ∨ vd.block_size ≠ 16 ∨
      ve.log_block_size ≠ 4 ∨ vd.log_block_size ≠ 4 then
    mem
  else
    let out := vd.run aes_key (List.replicate 16 0) (fun i => mem (enc_data + i)) len
    fun b => if enc_data ≤ b ∧ b < enc_data + len then out (b - enc_data) % 256 else mem b

/-- `compute_sha256` (bootloader.c:184), with the BearSSL SHA-256 core
modelled from the spec as an abstract digest function `sha` mapping a byte
stream and a length to the 32 digest bytes. -/
def compute_sha256 (sha : (Nat → Nat) → Nat → Nat → Nat) (data : Nat → Nat)
    (len : Nat) : Nat → Nat :=
  sha data len

/-- The digest-comparison loop of `decrypt_firmware` (bootloader.c:268):
compare bytes `i, i+1, ..., 31` of the computed and the stored digest,
returning -1 at the first differing byte and 0 when all remaining match. -/
def hash_check (hash stored : Nat → Nat) (i : Nat) : Int :=
  if i < 32 then
    if hash i % 256 ≠ stored i % 256 then -1 else hash_check hash stored (i + 1)
  else 0
termination_by 32 - i

/-- `decrypt_firmware` (bootloader.c:227): fail on a null image pointer, read
the image size word from memory at offset FIRMWARE_SIZE_PTR from the image
pointer, CBC-decrypt that many bytes in place at FIRMWARE_DATA_PTR, hash the
decrypted bytes and compare against the 32 stored digest bytes.  The
`totalsize` parameter is accepted but never read. -/
def decrypt_firmware (ve vd : CbcClass) (sha : (Nat → Nat) → Nat → Nat → Nat)
    (image totalsize : Nat) (mem : Mem) : Mem × Int :=
  if image = 0 then (mem, -1)
  else
    let image_size := read32 mem (image + FIRMWARE_SIZE_PTR)
    let mem1 := do_AES_decrypt ve vd FIRMWARE_DATA_PTR image_size mem
    let hash := compute_sha256 sha (fun i => mem1 (FIRMWARE_DATA_PTR + i)) image_size
    (mem1, hash_check hash (fun i => mem1 (FIRMWARE_HASH_PTR + i)) 0)

/-- Round a byte count up to the next multiple of 4, as handle_update does
before converting it to a flash word count (bootloader.c:354). -/
def roundUp4 (n : Nat) : Nat := if n % 4 ≠ 0 then n + (4 - n % 4) else n

/-- The release-message placement step of `handle_update`
(bootloader.c:336-357): a message of `msgSize` bytes (terminator included,
read from the byte stream `buf`) is written at FIRMWARE_RELEASE_MSG_PTR; if
it exceeds one page minus 8 bytes, the first page-minus-8 bytes go there and
the remainder, rounded up to a word boundary, goes to
FIRMWARE_RELEASE_MSG_PTR2 after erasing that page. -/
def write_release_msg (buf : Nat → Nat) (msgSize : Nat) (mem : Mem) :
    Mem × List Event :=
  if msgSize > FLASH_PAGE_SIZE - 8 then
    let mem1 := flash_write buf FIRMWARE_RELEASE_MSG_PTR ((FLASH_PAGE_SIZE - 8) / 4) mem
    let rem := roundUp4 (msgSize - (FLASH_PAGE_SIZE - 8))
    let mem2 := flash_erase_page FIRMWARE_RELEASE_MSG_PTR2 mem1
    let mem3 := flash_write (fun i => buf (FLASH_PAGE_SIZE - 8 + i))
      FIRMWARE_RELEASE_MSG_PTR2 (rem / 4) mem2
    (mem3, [Event.program FIRMWARE_RELEASE_MSG_PTR, Event.erase FIRMWARE_RELEASE_MSG_PTR2,
            Event.program FIRMWARE_RELEASE_MSG_PTR2])
  else
    let rem := roundUp4 msgSize
    (flash_write buf FIRMWARE_RELEASE_MSG_PTR (rem / 4) mem,
     [Event.program FIRMWARE_RELEASE_MSG_PTR])

/-- The bytes an update transaction receives from the host before the payload
stream: two version bytes, four size bytes, the release-message line and the
digest line (both as returned by `uart_readline`, terminator excluded), and
the page-framed payload byte stream. -/
structure UpdateInput where
  vb0 : Nat
  vb1 : Nat
  sb0 : Nat
  sb1 : Nat
  sb2 : Nat
  sb3 : Nat
  relMsg : List Nat
  shaLine : List Nat
  payload : Nat → Nat

/-- The candidate version assembled from the two received bytes
(bootloader.c:295). -/
def UpdateInput.version (inp : UpdateInput) : Nat :=
  (inp.vb0 % 256) * 256 + inp.vb1 % 256

/-- The payload size assembled from the four received bytes
(bootloader.c:299). -/
def UpdateInput.size (inp : UpdateInput) : Nat :=
  be32 inp.sb0 inp.sb1 inp.sb2 inp.sb3

/-- The `rel_msg` stack buffer after `uart_readline`: the received line
followed by a NUL terminator (bytes past the line modelled as 0). -/
def UpdateInput.msgBuf (inp : UpdateInput) : Nat → Nat :=
  fun i => if h : i < inp.relMsg.length then inp.relMsg[i] % 256 else 0

/-- Observables of one update transaction: the final memory, the memory as of
completion of the payload load (immediately before the terminal
`decrypt_firmware` call), the event trace, and the argument pair and return
value of the `decrypt_firmware` call when one occurs. -/
structure UpdateOut where
  mem : Mem
  memPreDecrypt : Mem
  events : List Event
  decryptArgs : Option (Nat × Nat)
  decryptRet : Option Int

/-- `handle_update` (bootloader.c:279): acknowledge, receive metadata, check
the candidate version against the stored one (erased sentinel resolving to
`oldest`, the OLDEST_VERSION build constant modelled from the spec), reject
stale versions with FRAME_BAD, otherwise rewrite the metadata page, place the
release message, acknowledge, stream the payload into the firmware region and
finally call `decrypt_firmware FIRMWARE_BOOT_PTR FIRMWARE_SIZE_PTR`, whose
result is assigned to a dead local. -/
def handle_update (ve vd : CbcClass) (sha : (Nat → Nat) → Nat → Nat → Nat)
    (oldest : Nat) (inp : UpdateInput) (mem : Mem) : UpdateOut :=
  let version := inp.version
  let size := inp.size
  let rel_msg_size := inp.relMsg.length + 1
  let current0 := read32 mem FIRMWARE_VERSION_PTR
  let current_version := if current0 = 0xFFFFFFFF then oldest else current0
  if version ≠ 0 ∧ version < current_version then
    ⟨mem, mem, [Event.sendb 0x55, Event.sendb FRAME_BAD], none, none⟩
  else
    let mem1 := flash_erase_page FIRMWARE_METADATA_PTR mem
    let mem2 := flash_write_word (if version ≠ 0 then version else current_version)
      FIRMWARE_VERSION_PTR mem1
    let mem3 := flash_write_word size FIRMWARE_SIZE_PTR mem2
    let msgStep := write_release_msg inp.msgBuf rel_msg_size mem3
    let loadStep := load_data inp.payload 0 FIRMWARE_STORAGE_PTR size msgStep.1
    let decStep := decrypt_firmware ve vd sha FIRMWARE_BOOT_PTR FIRMWARE_SIZE_PTR loadStep.1
    ⟨decStep.1, loadStep.1,
     Event.sendb 0x55 :: Event.erase FIRMWARE_METADATA_PTR ::
       Event.program FIRMWARE_VERSION_PTR :: Event.program FIRMWARE_SIZE_PTR ::
       msgStep.2 ++ Event.sendb FRAME_OK :: loadStep.2,
     some (FIRMWARE_BOOT_PTR, FIRMWARE_SIZE_PTR), some decStep.2⟩

/-- `handle_readback` (bootloader.c:113): acknowledge with the command byte,
read the region selector, echo it for F (firmware) or C (configuration) and
stream the requested number of bytes from the storage base of that region; any
other selector ends the command with no further output.  Memory is never
written. -/
def handle_readback (region s0 s1 s2 s3 : Nat) (mem : Mem) : Mem × List Event :=
  if region % 256 = 0x46 then
    (mem, Event.sendb 0x52 :: Event.sendb 0x46 ::
      (List.range (be32 s0 s1 s2 s3)).map
        (fun i => Event.sendb (mem (FIRMWARE_STORAGE_PTR + i) % 256)))
  else if region % 256 = 0x43 then
    (mem, Event.sendb 0x52 :: Event.sendb 0x43 ::
      (List.range (be32 s0 s1 s2 s3)).map
        (fun i => Event.sendb (mem (CONFIGURATION_STORAGE_PTR + i) % 256)))
  else
    (mem, [Event.sendb 0x52])

/-- Spec-side shape of the loader event trace (spec §4.2): for each of `n`
pages starting at `dst`, an erase, a program, and one FRAME_OK
acknowledgment. -/
def pagesTrace (dst : Nat) : Nat → List Event
  | 0 => []
  | n + 1 => Event.erase dst :: Event.program dst :: Event.sendb FRAME_OK ::
      pagesTrace (dst + FLASH_PAGE_SIZE) n

/-! Helper lemmas. -/

theorem read32_lt (mem : Mem) (a : Nat) : read32 mem a < 4294967296 := by
  unfold read32
  have h0 : mem a % 256 < 256 := Nat.mod_lt _ (by norm_num)
  have h1 : mem (a + 1) % 256 < 256 := Nat.mod_lt _ (by norm_num)
  have h2 : mem (a + 2) % 256 < 256 := Nat.mod_lt _ (by norm_num)
  have h3 : mem (a + 3) % 256 < 256 := Nat.mod_lt _ (by norm_num)
  omega

theorem read32_congr {m1 m2 : Mem} (a : Nat)
    (h : ∀ k, k < 4 → m1 (a + k) = m2 (a + k)) : read32 m1 a = read32 m2 a := by
  unfold read32
  have h0 := h 0 (by omega)
  simp only [Nat.add_zero] at h0
  rw [h0, h 1 (by omega), h 2 (by omega), h 3 (by omega)]

theorem flash_write_word_at (x a : Nat) (mem : Mem) :
    flash_write_word x a mem a = x % 256 ∧
    flash_write_word x a mem (a + 1) = x / 256 % 256 ∧
    flash_write_word x a mem (a + 2) = x / 65536 % 256 ∧
    flash_write_word x a mem (a + 3) = x / 16777216 % 256 := by
  unfold flash_write_word
  refine ⟨?_, ?_, ?_, ?_⟩
  · rw [if_pos rfl]
  · rw [if_neg (by omega), if_pos rfl]
  · rw [if_neg (by omega), if_neg (by omega), if_pos rfl]
  · rw [if_neg (by omega), if_neg (by omega), if_neg (by omega), if_pos rfl]

theorem read32_flash_write_word_self (x a : Nat) (mem : Mem) :
    read32 (flash_write_word x a mem) a = x % 4294967296 := by
  obtain ⟨e0, e1, e2, e3⟩ := flash_write_word_at x a mem
  unfold read32
  rw [e0, e1, e2, e3]
  omega

theorem flash_write_word_outside (x a : Nat) (mem : Mem) (b : Nat)
    (h : b < a ∨ a + 4 ≤ b) : flash_write_word x a mem b = mem b := by
  unfold flash_write_word
  rw [if_neg (by omega), if_neg (by omega), if_neg (by omega), if_neg (by omega)]

theorem flash_erase_page_outside (a : Nat) (mem : Mem) (b : Nat)
    (h : b < a ∨ a + FLASH_PAGE_SIZE ≤ b) : flash_erase_page a mem b = mem b := by
  unfold flash_erase_page
  rw [if_neg (by omega)]

theorem flash_write_outside (buf : Nat → Nat) (dst words : Nat) (mem : Mem) (b : Nat)
    (h : b < dst ∨ dst + 4 * words ≤ b) : flash_write buf dst words mem b = mem b := by
  unfold flash_write
  rw [if_neg (by omega)]

theorem flash_write_inside (buf : Nat → Nat) (dst words : Nat) (mem : Mem) (b : Nat)
    (h1 : dst ≤ b) (h2 : b < dst + 4 * words) :
    flash_write buf dst words mem b = buf (b - dst) % 256 := by
  unfold flash_write
  rw [if_pos ⟨h1, h2⟩]

/-- Addresses below the destination are untouched by the loader. -/
theorem load_data_preserve_below (stream : Nat → Nat) :
    ∀ size off dst mem a, a < dst → (load_data stream off dst size mem).1 a = mem a := by
  intro size
  induction size using Nat.strong_induction_on with
  | _ size ih =>
    intro off dst mem a ha
    rw [load_data]
    by_cases hz : size = 0
    · simp [hz]
    · rw [if_neg hz]
      simp only
      rw [ih _ (by simp only [FLASH_PAGE_SIZE]; split <;> omega) _ _ _ _ (by omega)]
      rw [flash_write_outside _ _ _ _ _ (Or.inl ha),
        flash_erase_page_outside _ _ _ (Or.inl ha)]

/-- Bytes within the declared length arrive at the destination unchanged. -/
theorem load_data_bytes (stream : Nat → Nat) :
    ∀ size off dst mem i, i < size →
      (load_data stream off dst size mem).1 (dst + i) = stream (off + i) % 256 := by
  intro size
  induction size using Nat.strong_induction_on with
  | _ size ih =>
    intro off dst mem i hi
    rw [load_data, if_neg (by omega)]
    simp only [FLASH_PAGE_SIZE]
    by_cases hbig : size > 1024
    · rw [if_pos hbig]
      by_cases hfirst : i < 1024
      · rw [load_data_preserve_below _ _ _ _ _ _ (by omega)]
        rw [flash_write_inside _ _ _ _ _ (by omega) (by omega)]
        have h1 : dst + i - dst = i := by omega
        simp only [h1]
        rw [if_pos hfirst]
        omega
      · have h2 : dst + i = dst + 1024 + (i - 1024) := by omega
        rw [h2, ih (size - 1024) (by omega) _ _ _ _ (by omega)]
        have h3 : off + 1024 + (i - 1024) = off + i := by omega
        rw [h3]
    · rw [if_neg hbig]
      rw [load_data_preserve_below _ _ _ _ _ _ (by omega)]
      rw [flash_write_inside _ _ _ _ _ (by omega) (by omega)]
      have h1 : dst + i - dst = i := by omega
      simp only [h1]
      rw [if_pos hi]
      omega

/-- The number of pages the loader programs for `size` payload bytes. -/
def numPages (size : Nat) : Nat := (size + FLASH_PAGE_SIZE - 1) / FLASH_PAGE_SIZE

theorem numPages_eq (size : Nat) : numPages size = (size + 1023) / 1024 := by
  simp only [numPages, FLASH_PAGE_SIZE]
  omega

/-- The padded tail of the final page reads back as erased 0xFF bytes. -/
theorem load_data_tail (stream : Nat → Nat) :
    ∀ size off dst mem i, size ≤ i → i < numPages size * FLASH_PAGE_SIZE →
      (load_data stream off dst size mem).1 (dst + i) = 0xFF := by
  intro size
  induction size using Nat.strong_induction_on with
  | _ size ih =>
    intro off dst mem i hlo hhi
    rw [numPages_eq] at hhi
    simp only [FLASH_PAGE_SIZE] at hhi
    by_cases hz : size = 0
    · exfalso
      subst hz
      omega
    rw [load_data, if_neg hz]
    simp only [FLASH_PAGE_SIZE]
    by_cases hbig : size > 1024
    · rw [if_pos hbig]
      have h2 : dst + i = dst + 1024 + (i - 1024) := by omega
      rw [h2, ih (size - 1024) (by omega) _ _ _ _ (by omega)
        (by rw [numPages_eq]; simp only [FLASH_PAGE_SIZE]; omega)]
    · rw [if_neg hbig]
      rw [load_data_preserve_below _ _ _ _ _ _ (by omega)]
      rw [flash_write_inside _ _ _ _ _ (by omega) (by omega)]
      have h1 : dst + i - dst = i := by omega
      simp only [h1]
      rw [if_neg (by omega)]

theorem pagesTrace_succ (dst n : Nat) :
    pagesTrace dst (n + 1) = Event.erase dst :: Event.program dst ::
      Event.sendb FRAME_OK :: pagesTrace (dst + 1024) n := by
  rw [pagesTrace]
  simp only [FLASH_PAGE_SIZE]

/-- The loader event trace is, page for page, an erase, a program, and one
FRAME_OK acknowledgment. -/
theorem load_data_trace (stream : Nat → Nat) :
    ∀ size off dst mem,
      (load_data stream off dst size mem).2 = pagesTrace dst (numPages size) := by
  intro size
  induction size using Nat.strong_induction_on with
  | _ size ih =>
    intro off dst mem
    by_cases hz : size = 0
    · rw [load_data, if_pos hz]
      have h0 : numPages size = 0 := by
        rw [numPages_eq, hz]
      rw [h0, pagesTrace]
    rw [load_data, if_neg hz]
    simp only [FLASH_PAGE_SIZE]
    obtain ⟨n, hn⟩ : ∃ n, numPages size = n + 1 := by
      refine ⟨numPages size - 1, ?_⟩
      rw [numPages_eq]
      omega
    rw [hn, pagesTrace_succ]
    by_cases hbig : size > 1024
    · rw [if_pos hbig]
      rw [ih (size - 1024) (by omega) (off + 1024) (dst + 1024) _]
      have he : numPages (size - 1024) = n := by
        rw [numPages_eq] at hn ⊢
        omega
      rw [he]
    · rw [if_neg hbig]
      rw [ih (size - size) (by omega) _ _ _]
      have hz2 : numPages (size - size) = 0 := by
        rw [numPages_eq]
        omega
      have hn0 : n = 0 := by
        rw [numPages_eq] at hn
        omega
      rw [hz2, hn0, pagesTrace]

/-- A `pagesTrace` contains exactly one acknowledgment byte per page. -/
theorem pagesTrace_count_ack (dst n : Nat) :
    (pagesTrace dst n).count (Event.sendb FRAME_OK) = n := by
  induction n generalizing dst with
  | zero => rw [pagesTrace]; rfl
  | succ n ih =>
    rw [pagesTrace_succ]
    simp [List.count_cons, ih]

theorem FIRMWARE_HASH_PTR_eq : FIRMWARE_HASH_PTR = 0x2B3B0 := by
  norm_num [FIRMWARE_HASH_PTR, FLASH_START]

theorem FIRMWARE_SIZE_PTR_eq : FIRMWARE_SIZE_PTR = 0x2B400 := by
  norm_num [FIRMWARE_SIZE_PTR, FIRMWARE_METADATA_PTR, FLASH_START]

theorem FIRMWARE_METADATA_PTR_eq : FIRMWARE_METADATA_PTR = 0x2B400 := by
  norm_num [FIRMWARE_METADATA_PTR, FLASH_START]

theorem FIRMWARE_VERSION_PTR_eq : FIRMWARE_VERSION_PTR = 0x2B404 := by
  norm_num [FIRMWARE_VERSION_PTR, FIRMWARE_METADATA_PTR, FLASH_START]

theorem FIRMWARE_RELEASE_MSG_PTR_eq : FIRMWARE_RELEASE_MSG_PTR = 0x2B408 := by
  norm_num [FIRMWARE_RELEASE_MSG_PTR, FIRMWARE_METADATA_PTR, FLASH_START]

theorem FIRMWARE_RELEASE_MSG_PTR2_eq : FIRMWARE_RELEASE_MSG_PTR2 = 0x2B800 := by
  norm_num [FIRMWARE_RELEASE_MSG_PTR2, FIRMWARE_METADATA_PTR, FLASH_START, FLASH_PAGE_SIZE]

theorem FIRMWARE_DATA_PTR_eq : FIRMWARE_DATA_PTR = 0 := by
  norm_num [FIRMWARE_DATA_PTR, FIRMWARE_METADATA_PTR, FLASH_START, FLASH_PAGE_SIZE]

theorem FIRMWARE_STORAGE_PTR_eq : FIRMWARE_STORAGE_PTR = 0x2BC00 := by
  norm_num [FIRMWARE_STORAGE_PTR, FIRMWARE_METADATA_PTR, FLASH_START, FLASH_PAGE_SIZE]

theorem CONFIGURATION_STORAGE_PTR_eq : CONFIGURATION_STORAGE_PTR = 0x30000 := by
  norm_num [CONFIGURATION_STORAGE_PTR, CONFIGURATION_METADATA_PTR, FIRMWARE_STORAGE_PTR,
    FIRMWARE_METADATA_PTR, FLASH_START, FLASH_PAGE_SIZE]

/-- The digest-comparison loop, characterised: starting at index `i`, it
yields 0 exactly when all remaining byte pairs agree, and it only ever yields
0 or -1. -/
theorem hash_check_spec (hash stored : Nat → Nat) :
    ∀ n i, 32 - i = n →
      (hash_check hash stored i = 0 ↔
        ∀ j, i ≤ j → j < 32 → hash j % 256 = stored j % 256) ∧
      (hash_check hash stored i = 0 ∨ hash_check hash stored i = -1) := by
  intro n
  induction n with
  | zero =>
    intro i hi
    rw [hash_check, if_neg (by omega)]
    refine ⟨⟨fun _ j hj1 hj2 => absurd hj2 (by omega), fun _ => rfl⟩, Or.inl rfl⟩
  | succ n ih =>
    intro i hi
    rw [hash_check, if_pos (by omega)]
    by_cases hne : hash i % 256 ≠ stored i % 256
    · rw [if_pos hne]
      refine ⟨⟨fun h => absurd h (by decide), ?_⟩, Or.inr rfl⟩
      intro hall
      exact absurd (hall i (le_refl i) (by omega)) hne
    · rw [if_neg hne]
      push_neg at hne
      obtain ⟨ihiff, ihmem⟩ := ih (i + 1) (by omega)
      refine ⟨?_, ihmem⟩
      rw [ihiff]
      constructor
      · intro hall j hj1 hj2
        rcases Nat.eq_or_lt_of_le hj1 with he | hlt
        · rw [← he]
          exact hne
        · exact hall j (by omega) hj2
      · intro hall j hj1 hj2
        exact hall j (by omega) hj2

theorem hash_check_zero_iff (hash stored : Nat → Nat) :
    hash_check hash stored 0 = 0 ↔ ∀ j, j < 32 → hash j % 256 = stored j % 256 := by
  rw [(hash_check_spec hash stored 32 0 rfl).1]
  exact ⟨fun h j hj => h j (Nat.zero_le j) hj, fun h j _ hj => h j hj⟩

theorem hash_check_cases (hash stored : Nat → Nat) :
    hash_check hash stored 0 = 0 ∨ hash_check hash stored 0 = -1 :=
  (hash_check_spec hash stored 32 0 rfl).2

/-- The release-message writer leaves all addresses below the primary
release-message slot untouched. -/
theorem write_release_msg_preserve_below (buf : Nat → Nat) (msgSize : Nat) (mem : Mem)
    (a : Nat) (ha : a < FIRMWARE_RELEASE_MSG_PTR) :
    (write_release_msg buf msgSize mem).1 a = mem a := by
  rw [FIRMWARE_RELEASE_MSG_PTR_eq] at ha
  unfold write_release_msg
  by_cases h : msgSize > FLASH_PAGE_SIZE - 8
  · rw [if_pos h]
    simp only
    rw [flash_write_outside _ _ _ _ _
        (Or.inl (by rw [FIRMWARE_RELEASE_MSG_PTR2_eq]; omega)),
      flash_erase_page_outside _ _ _
        (Or.inl (by rw [FIRMWARE_RELEASE_MSG_PTR2_eq]; omega)),
      flash_write_outside _ _ _ _ _
        (Or.inl (by rw [FIRMWARE_RELEASE_MSG_PTR_eq]; omega))]
  · rw [if_neg h]
    simp only
    rw [flash_write_outside _ _ _ _ _
        (Or.inl (by rw [FIRMWARE_RELEASE_MSG_PTR_eq]; omega))]

/-- On a non-null image, `decrypt_firmware` decrypts in place and returns the
digest-comparison verdict over the post-decrypt memory. -/
theorem decrypt_firmware_nonnull (ve vd : CbcClass) (sha : (Nat → Nat) → Nat → Nat → Nat)
    (image totalsize : Nat) (mem : Mem) (h : image ≠ 0) :
    decrypt_firmware ve vd sha image totalsize mem =
      (do_AES_decrypt ve vd FIRMWARE_DATA_PTR (read32 mem (image + FIRMWARE_SIZE_PTR)) mem,
       hash_check
         (compute_sha256 sha
           (fun j => do_AES_decrypt ve vd FIRMWARE_DATA_PTR
             (read32 mem (image + FIRMWARE_SIZE_PTR)) mem (FIRMWARE_DATA_PTR + j))
           (read32 mem (image + FIRMWARE_SIZE_PTR)))
         (fun i => do_AES_decrypt ve vd FIRMWARE_DATA_PTR
           (read32 mem (image + FIRMWARE_SIZE_PTR)) mem (FIRMWARE_HASH_PTR + i)) 0) := by
  unfold decrypt_firmware
  rw [if_neg h]

/-! Concrete instances used to evaluate the theorems at concrete inputs. -/

/-- A cipher vtable reporting the AES block geometry whose run primitive is
the identity transform. -/
def cbcId : CbcClass := ⟨16, 4, fun _ _ data _ => data⟩

/-- A cipher vtable reporting an unsupported 8-byte block geometry. -/
def cbcBad : CbcClass := ⟨8, 3, fun _ _ data _ => data⟩

/-- A cipher vtable reporting the AES block geometry whose run primitive
zeroes every output byte. -/
def cbcZero : CbcClass := ⟨16, 4, fun _ _ _ _ => fun _ => 0⟩

/-- A digest function that returns all-zero digests. -/
def shaZero : (Nat → Nat) → Nat → Nat → Nat := fun _ _ _ => 0

/-- All-zero memory. -/
def memZero : Mem := fun _ => 0

/-- Fully erased memory: every byte reads 0xFF. -/
def memErased : Mem := fun _ => 0xFF

/-- The bytes a trace sends to the host, in order. -/
def outputBytes : List Event → List Nat
  | [] => []
  | Event.sendb b :: rest => b :: outputBytes rest
  | Event.erase _ :: rest => outputBytes rest
  | Event.program _ :: rest => outputBytes rest

/-- The flash operations (erases and programs) of a trace, in order. -/
def flashOps : List Event → List Event
  | [] => []
  | Event.sendb _ :: rest => flashOps rest
  | Event.erase a :: rest => Event.erase a :: flashOps rest
  | Event.program a :: rest => Event.program a :: flashOps rest

theorem outputBytes_map_sendb (f : Nat → Nat) (l : List Nat) :
    outputBytes (l.map fun i => Event.sendb (f i)) = l.map f := by
  induction l with
  | nil => rfl
  | cons x xs ih =>
    simp only [List.map_cons, outputBytes, ih]

theorem flashOps_map_sendb (f : Nat → Nat) (l : List Nat) :
    flashOps (l.map fun i => Event.sendb (f i)) = [] := by
  induction l with
  | nil => rfl
  | cons x xs ih =>
    simp only [List.map_cons, flashOps, ih]

/-! The claims. -/

/-- C1: the integrity pipeline `decrypt_firmware` returns Ok (0) if and only
if its image pointer is non-null and the SHA-256 digest of the decrypted
payload equals the 32 stored digest bytes byte-for-byte (both read from the
post-decrypt memory, as the code reads them); it returns Fail (-1) when the
image pointer is null, and Fail whenever some digest byte differs. -/
theorem decrypt_firmware_ok_iff_digest_match (ve vd : CbcClass)
    (sha : (Nat → Nat) → Nat → Nat → Nat) (image totalsize : Nat) (mem : Mem) :
    ((decrypt_firmware ve vd sha image totalsize mem).2 = 0 ↔
      image ≠ 0 ∧ ∀ i, i < 32 →
        compute_sha256 sha
            (fun j => (decrypt_firmware ve vd sha image totalsize mem).1 (FIRMWARE_DATA_PTR + j))
            (read32 mem (image + FIRMWARE_SIZE_PTR)) i % 256 =
          (decrypt_firmware ve vd sha image totalsize mem).1 (FIRMWARE_HASH_PTR + i) % 256) ∧
    (image = 0 → (decrypt_firmware ve vd sha image totalsize mem).2 = -1) ∧
    ((image ≠ 0 ∧ ∃ i, i < 32 ∧
        compute_sha256 sha
            (fun j => (decrypt_firmware ve vd sha image totalsize mem).1 (FIRMWARE_DATA_PTR + j))
            (read32 mem (image + FIRMWARE_SIZE_PTR)) i % 256 ≠
          (decrypt_firmware ve vd sha image totalsize mem).1 (FIRMWARE_HASH_PTR + i) % 256) →
      (decrypt_firmware ve vd sha image totalsize mem).2 = -1) := by
  by_cases himg : image = 0
  · subst himg
    refine ⟨?_, fun _ => by simp [decrypt_firmware], ?_⟩
    · simp [decrypt_firmware]
    · rintro ⟨h0, _⟩
      exact absurd rfl h0
  · rw [decrypt_firmware_nonnull ve vd sha image totalsize mem himg]
    simp only
    refine ⟨?_, fun h => absurd h himg, ?_⟩
    · rw [hash_check_zero_iff]
      exact ⟨fun h => ⟨himg, fun i hi => h i hi⟩, fun h i hi => h.2 i hi⟩
    · rintro ⟨-, i, hi, hne⟩
      rcases hash_check_cases
          (compute_sha256 sha
            (fun j => do_AES_decrypt ve vd FIRMWARE_DATA_PTR
              (read32 mem (image + FIRMWARE_SIZE_PTR)) mem (FIRMWARE_DATA_PTR + j))
            (read32 mem (image + FIRMWARE_SIZE_PTR)))
          (fun i => do_AES_decrypt ve vd FIRMWARE_DATA_PTR
            (read32 mem (image + FIRMWARE_SIZE_PTR)) mem (FIRMWARE_HASH_PTR + i)) with h0 | h1
      · exact absurd ((hash_check_zero_iff _ _).1 h0 i hi) hne
      · exact h1

/-- Evaluation of C1 at a concrete input: the null image pointer fails. -/
theorem decrypt_firmware_ok_iff_digest_match_witness :
    (decrypt_firmware cbcId cbcId shaZero 0 0 memZero).2 = -1 :=
  (decrypt_firmware_ok_iff_digest_match cbcId cbcId shaZero 0 0 memZero).2.1 rfl

/-- C9: if either configured cipher vtable reports a block size other than 16
bytes or a log-block-size other than 4, the decrypt step is a no-op that
leaves every memory byte unmodified; `decrypt_firmware` signals no distinct
error, returning only the digest-comparison verdict computed over the
unmodified data. -/
theorem do_AES_decrypt_bad_block_size_noop (ve vd : CbcClass)
    (sha : (Nat → Nat) → Nat → Nat → Nat) (image totalsize enc_data len : Nat) (mem : Mem)
    (hbad : ve.block_size ≠ 16 ∨ vd.block_size ≠ 16 ∨
      ve.log_block_size ≠ 4 ∨ vd.log_block_size ≠ 4)
    (himg : image ≠ 0) :
    do_AES_decrypt ve vd enc_data len mem = mem ∧
    (decrypt_firmware ve vd sha image totalsize mem).1 = mem ∧
    (decrypt_firmware ve vd sha image totalsize mem).2 =
      hash_check
        (compute_sha256 sha (fun j => mem (FIRMWARE_DATA_PTR + j))
          (read32 mem (image + FIRMWARE_SIZE_PTR)))
        (fun i => mem (FIRMWARE_HASH_PTR + i)) 0 := by
  have hnoop : ∀ e l, do_AES_decrypt ve vd e l mem = mem := by
    intro e l
    unfold do_AES_decrypt
    rw [if_pos hbad]
  refine ⟨hnoop enc_data len, ?_, ?_⟩ <;>
    rw [decrypt_firmware_nonnull ve vd sha image totalsize mem himg] <;>
    simp only [hnoop]

/-- Evaluation of C9 at a concrete input: an 8-byte-block vtable leaves
memory untouched. -/
theorem do_AES_decrypt_bad_block_size_noop_witness :
    do_AES_decrypt cbcBad cbcBad 0 5 memZero = memZero :=
  (do_AES_decrypt_bad_block_size_noop cbcBad cbcBad shaZero 1 0 0 5 memZero
    (by decide) (by decide)).1

/-- C10: `decrypt_firmware` ignores its `totalsize` parameter: for a non-null
image pointer and any two values of that argument over the same memory, the
resulting memory and verdict coincide, because the byte count it processes is
the word read from memory at `image + FIRMWARE_SIZE_PTR`. -/
theorem decrypt_firmware_ignores_totalsize (ve vd : CbcClass)
    (sha : (Nat → Nat) → Nat → Nat → Nat) (image ts1 ts2 : Nat) (mem : Mem)
    (himg : image ≠ 0) :
    decrypt_firmware ve vd sha image ts1 mem = decrypt_firmware ve vd sha image ts2 mem :=
  rfl

/-- Evaluation of C10 at a concrete input. -/
theorem decrypt_firmware_ignores_totalsize_witness :
    decrypt_firmware cbcId cbcId shaZero 1 0 memZero =
      decrypt_firmware cbcId cbcId shaZero 1 99 memZero :=
  decrypt_firmware_ignores_totalsize cbcId cbcId shaZero 1 0 99 memZero (by decide)

/-- C4: the digest-comparison outcome of the update transaction is never
surfaced to the host and never alters flash: two runs of `handle_update`
identical except for the digest function (hence except for the
digest-comparison result) produce the same event trace — so the same
host-visible bytes — and the same final memory. -/
theorem handle_update_digest_outcome_noninterference (ve vd : CbcClass)
    (sha1 sha2 : (Nat → Nat) → Nat → Nat → Nat) (oldest : Nat)
    (inp : UpdateInput) (mem : Mem) :
    (handle_update ve vd sha1 oldest inp mem).mem =
      (handle_update ve vd sha2 oldest inp mem).mem ∧
    (handle_update ve vd sha1 oldest inp mem).events =
      (handle_update ve vd sha2 oldest inp mem).events := by
  have hboot : FIRMWARE_BOOT_PTR ≠ 0 := by
    norm_num [FIRMWARE_BOOT_PTR]
  by_cases hc : inp.version ≠ 0 ∧ inp.version <
      (if read32 mem FIRMWARE_VERSION_PTR = 0xFFFFFFFF then oldest
       else read32 mem FIRMWARE_VERSION_PTR)
  · constructor
    · simp only [handle_update]
      rw [if_pos hc, if_pos hc]
    · simp only [handle_update]
      rw [if_pos hc, if_pos hc]
  · constructor
    · simp only [handle_update]
      rw [if_neg hc, if_neg hc]
      simp only [decrypt_firmware_nonnull _ _ _ _ _ _ hboot]
    · simp only [handle_update]
      rw [if_neg hc, if_neg hc]

/-- C5: when an update is rejected for a stale version (candidate nonzero and
below the resolved current version), the device sends the status byte 0x01 in
place of the per-transaction OK byte right after the command acknowledgment,
the transaction ends there, no flash operation occurs, and memory is bitwise
unchanged. -/
theorem handle_update_stale_version_rejection (ve vd : CbcClass)
    (sha : (Nat → Nat) → Nat → Nat → Nat) (oldest : Nat) (inp : UpdateInput) (mem : Mem)
    (hnz : inp.version ≠ 0)
    (hlt : inp.version <
      (if read32 mem FIRMWARE_VERSION_PTR = 0xFFFFFFFF then oldest
       else read32 mem FIRMWARE_VERSION_PTR)) :
    (handle_update ve vd sha oldest inp mem).events =
      [Event.sendb 0x55, Event.sendb FRAME_BAD] ∧
    flashOps (handle_update ve vd sha oldest inp mem).events = [] ∧
    (handle_update ve vd sha oldest inp mem).mem = mem := by
  have hu : handle_update ve vd sha oldest inp mem =
      ⟨mem, mem, [Event.sendb 0x55, Event.sendb FRAME_BAD], none, none⟩ := by
    simp only [handle_update]
    rw [if_pos ⟨hnz, hlt⟩]
  rw [hu]
  exact ⟨rfl, rfl, rfl⟩

/-- The first stale-rejection input used to evaluate C5: candidate version 1
against stored version 5. -/
def inpV1 : UpdateInput := ⟨0, 1, 0, 0, 0, 0, [], [], fun _ => 0⟩

/-- Memory whose stored firmware version word reads 5. -/
def memVer5 : Mem := fun a => if a = 0x2B404 then 5 else 0

/-- Evaluation of C5 at a concrete input: version 1 against stored version 5
is rejected with only the acknowledgment and the bad-status byte. -/
theorem handle_update_stale_version_rejection_witness :
    (handle_update cbcId cbcId shaZero 0 inpV1 memVer5).events =
      [Event.sendb 0x55, Event.sendb FRAME_BAD] :=
  (handle_update_stale_version_rejection cbcId cbcId shaZero 0 inpV1 memVer5
    (by decide) (by decide)).1

/-- C6: Page Loader round-trip: for a payload of length L > 0, after loading,
the destination holds the original L bytes, the tail of the final page beyond
L holds 0xFF bytes up to the page boundary, the event trace is page-for-page
an erase followed by a program followed by one FRAME_OK (0x00) acknowledgment,
and there are exactly ceil(L / page_size) = numPages L acknowledgments. -/
theorem load_data_roundtrip (stream : Nat → Nat) (dst L : Nat) (mem : Mem)
    (hL : 0 < L) :
    (∀ i, i < L → (load_data stream 0 dst L mem).1 (dst + i) = stream i % 256) ∧
    (∀ i, L ≤ i → i < numPages L * FLASH_PAGE_SIZE →
      (load_data stream 0 dst L mem).1 (dst + i) = 0xFF) ∧
    (load_data stream 0 dst L mem).2 = pagesTrace dst (numPages L) ∧
    (load_data stream 0 dst L mem).2.count (Event.sendb FRAME_OK) = numPages L := by
  refine ⟨fun i hi => ?_, fun i h1 h2 => load_data_tail stream L 0 dst mem i h1 h2,
    load_data_trace stream L 0 dst mem, ?_⟩
  · have hb := load_data_bytes stream L 0 dst mem i hi
    rwa [Nat.zero_add] at hb
  · rw [load_data_trace stream L 0 dst mem, pagesTrace_count_ack]

/-- Evaluation of C6 at a concrete input: a 1-byte payload lands at the
destination and the trace is one erase-program-acknowledge page. -/
theorem load_data_roundtrip_witness :
    (load_data (fun _ => 7) 0 0 1 memZero).1 (0 + 0) = 7 % 256 ∧
    (load_data (fun _ => 7) 0 0 1 memZero).2 = pagesTrace 0 (numPages 1) :=
  ⟨(load_data_roundtrip (fun _ => 7) 0 1 memZero (by decide)).1 0 (by decide),
   (load_data_roundtrip (fun _ => 7) 0 1 memZero (by decide)).2.2.1⟩

/-- C7: release-message placement: when the stored length (terminator
included) exceeds page_size - 8 bytes, the first page_size - 8 bytes land at
the primary release-message address and the remainder, rounded up to a 4-byte
boundary, lands at the secondary page address, with an erase of that second
page between the two programs; for a length of at most page_size - 8 only the
primary address is written and every byte outside the programmed range is
untouched. -/
theorem write_release_msg_placement (buf : Nat → Nat) (msgSize : Nat) (mem : Mem) :
    (msgSize > FLASH_PAGE_SIZE - 8 →
      (∀ i, i < FLASH_PAGE_SIZE - 8 →
        (write_release_msg buf msgSize mem).1 (FIRMWARE_RELEASE_MSG_PTR + i) =
          buf i % 256) ∧
      (∀ i, i < roundUp4 (msgSize - (FLASH_PAGE_SIZE - 8)) →
        (write_release_msg buf msgSize mem).1 (FIRMWARE_RELEASE_MSG_PTR2 + i) =
          buf (FLASH_PAGE_SIZE - 8 + i) % 256) ∧
      (write_release_msg buf msgSize mem).2 =
        [Event.program FIRMWARE_RELEASE_MSG_PTR, Event.erase FIRMWARE_RELEASE_MSG_PTR2,
         Event.program FIRMWARE_RELEASE_MSG_PTR2]) ∧
    (msgSize ≤ FLASH_PAGE_SIZE - 8 →
      (∀ i, i < roundUp4 msgSize →
        (write_release_msg buf msgSize mem).1 (FIRMWARE_RELEASE_MSG_PTR + i) =
          buf i % 256) ∧
      (∀ a, a < FIRMWARE_RELEASE_MSG_PTR ∨
          FIRMWARE_RELEASE_MSG_PTR + roundUp4 msgSize ≤ a →
        (write_release_msg buf msgSize mem).1 a = mem a) ∧
      (write_release_msg buf msgSize mem).2 = [Event.program FIRMWARE_RELEASE_MSG_PTR]) := by
  have hp : FLASH_PAGE_SIZE = 1024 := rfl
  have hm1 : FIRMWARE_RELEASE_MSG_PTR = 0x2B408 := FIRMWARE_RELEASE_MSG_PTR_eq
  have hm2 : FIRMWARE_RELEASE_MSG_PTR2 = 0x2B800 := FIRMWARE_RELEASE_MSG_PTR2_eq
  have h4 : ∀ n, 4 * (roundUp4 n / 4) = roundUp4 n := by
    intro n
    unfold roundUp4
    split <;> omega
  constructor
  · intro h
    have hw : write_release_msg buf msgSize mem =
        (flash_write (fun i => buf (FLASH_PAGE_SIZE - 8 + i)) FIRMWARE_RELEASE_MSG_PTR2
           (roundUp4 (msgSize - (FLASH_PAGE_SIZE - 8)) / 4)
           (flash_erase_page FIRMWARE_RELEASE_MSG_PTR2
             (flash_write buf FIRMWARE_RELEASE_MSG_PTR ((FLASH_PAGE_SIZE - 8) / 4) mem)),
         [Event.program FIRMWARE_RELEASE_MSG_PTR, Event.erase FIRMWARE_RELEASE_MSG_PTR2,
          Event.program FIRMWARE_RELEASE_MSG_PTR2]) := by
      unfold write_release_msg
      rw [if_pos h]
    rw [hw]
    refine ⟨?_, ?_, rfl⟩
    · intro i hi
      simp only
      rw [flash_write_outside _ _ _ _ _ (Or.inl (by omega)),
        flash_erase_page_outside _ _ _ (Or.inl (by omega)),
        flash_write_inside _ _ _ _ _ (by omega) (by omega)]
      have hidx : FIRMWARE_RELEASE_MSG_PTR + i - FIRMWARE_RELEASE_MSG_PTR = i := by omega
      rw [hidx]
    · intro i hi
      simp only
      rw [flash_write_inside _ _ _ _ _ (by omega) (by rw [h4]; omega)]
      have hidx : FIRMWARE_RELEASE_MSG_PTR2 + i - FIRMWARE_RELEASE_MSG_PTR2 = i := by omega
      rw [hidx]
  · intro h
    have hw : write_release_msg buf msgSize mem =
        (flash_write buf FIRMWARE_RELEASE_MSG_PTR (roundUp4 msgSize / 4) mem,
         [Event.program FIRMWARE_RELEASE_MSG_PTR]) := by
      unfold write_release_msg
      rw [if_neg (by omega)]
    rw [hw]
    refine ⟨?_, ?_, rfl⟩
    · intro i hi
      simp only
      rw [flash_write_inside _ _ _ _ _ (by omega) (by rw [h4]; omega)]
      have hidx : FIRMWARE_RELEASE_MSG_PTR + i - FIRMWARE_RELEASE_MSG_PTR = i := by omega
      rw [hidx]
    · intro a ha
      simp only
      rw [flash_write_outside _ _ _ _ _ (by rw [h4]; omega)]

/-- Evaluation of C7 at a concrete input: a 1-byte message is written word-
aligned at the primary address only. -/
theorem write_release_msg_placement_witness :
    (write_release_msg (fun _ => 9) 1 memZero).2 =
      [Event.program FIRMWARE_RELEASE_MSG_PTR] :=
  ((write_release_msg_placement (fun _ => 9) 1 memZero).2 (by decide)).2.2

/-- C8: readback is the identity transform: for selector byte F the device
echoes R then F and then sends exactly the first n bytes at the firmware
storage base, for C the first n bytes at the configuration storage base —
independent of any recorded payload size — and for every other selector it
sends only the R acknowledgment; in every case no flash operation occurs and
memory is unchanged. -/
theorem handle_readback_identity (region s0 s1 s2 s3 : Nat) (mem : Mem) :
    (region % 256 = 0x46 →
      outputBytes (handle_readback region s0 s1 s2 s3 mem).2 =
        0x52 :: 0x46 :: (List.range (be32 s0 s1 s2 s3)).map
          (fun i => mem (FIRMWARE_STORAGE_PTR + i) % 256)) ∧
    (region % 256 = 0x43 →
      outputBytes (handle_readback region s0 s1 s2 s3 mem).2 =
        0x52 :: 0x43 :: (List.range (be32 s0 s1 s2 s3)).map
          (fun i => mem (CONFIGURATION_STORAGE_PTR + i) % 256)) ∧
    (region % 256 ≠ 0x46 → region % 256 ≠ 0x43 →
      outputBytes (handle_readback region s0 s1 s2 s3 mem).2 = [0x52]) ∧
    flashOps (handle_readback region s0 s1 s2 s3 mem).2 = [] ∧
    (handle_readback region s0 s1 s2 s3 mem).1 = mem := by
  by_cases hf : region % 256 = 0x46
  · refine ⟨fun _ => ?_, fun hc => absurd hc (by omega), fun hc _ => absurd hf hc, ?_, ?_⟩ <;>
      simp only [handle_readback, hf, if_pos rfl, ite_true] <;>
      simp [outputBytes, flashOps, outputBytes_map_sendb, flashOps_map_sendb]
  · by_cases hc : region % 256 = 0x43
    · refine ⟨fun h => absurd h hf, fun _ => ?_, fun _ hcc => absurd hc hcc, ?_, ?_⟩ <;>
        simp only [handle_readback, hf, hc, if_neg hf, if_pos rfl, ite_true, ite_false] <;>
        simp [outputBytes, flashOps, outputBytes_map_sendb, flashOps_map_sendb]
    · refine ⟨fun h => absurd h hf, fun h => absurd h hc, fun _ _ => ?_, ?_, ?_⟩ <;>
        simp only [handle_readback, if_neg hf, if_neg hc] <;>
        simp [outputBytes, flashOps]

/-- Evaluation of C8 at a concrete input: an unknown selector byte yields only
the acknowledgment and touches nothing. -/
theorem handle_readback_identity_witness :
    outputBytes (handle_readback 0x58 0 0 0 4 memZero).2 = [0x52] :=
  ((handle_readback_identity 0x58 0 0 0 4 memZero).2.2.1 (by decide) (by decide))

theorem load_data_zero (stream : Nat → Nat) (off dst : Nat) (mem : Mem) :
    load_data stream off dst 0 mem = (mem, []) := by
  rw [load_data]
  simp

theorem load_data_zero_fst (stream : Nat → Nat) (off dst : Nat) (mem : Mem) :
    (load_data stream off dst 0 mem).1 = mem := by
  rw [load_data_zero]

/-- The memory component of `decrypt_firmware` on a non-null image. -/
theorem decrypt_firmware_nonnull_fst (ve vd : CbcClass)
    (sha : (Nat → Nat) → Nat → Nat → Nat) (image totalsize : Nat) (mem : Mem)
    (h : image ≠ 0) :
    (decrypt_firmware ve vd sha image totalsize mem).1 =
      do_AES_decrypt ve vd FIRMWARE_DATA_PTR (read32 mem (image + FIRMWARE_SIZE_PTR)) mem := by
  rw [decrypt_firmware_nonnull ve vd sha image totalsize mem h]

theorem UpdateInput.version_lt (inp : UpdateInput) : inp.version < 65536 := by
  unfold UpdateInput.version
  have h0 : inp.vb0 % 256 < 256 := Nat.mod_lt _ (by norm_num)
  have h1 : inp.vb1 % 256 < 256 := Nat.mod_lt _ (by norm_num)
  omega

/-- On an accepted update transaction, the version word in the memory as of
completion of the payload load is the resolved version the metadata phase
wrote. -/
theorem handle_update_accept_version_read (ve vd : CbcClass)
    (sha : (Nat → Nat) → Nat → Nat → Nat) (oldest : Nat) (inp : UpdateInput) (mem : Mem)
    (hacc : ¬(inp.version ≠ 0 ∧ inp.version <
      (if read32 mem FIRMWARE_VERSION_PTR = 0xFFFFFFFF then oldest
       else read32 mem FIRMWARE_VERSION_PTR))) :
    read32 (handle_update ve vd sha oldest inp mem).memPreDecrypt FIRMWARE_VERSION_PTR =
      (if inp.version ≠ 0 then inp.version
       else if read32 mem FIRMWARE_VERSION_PTR = 0xFFFFFFFF then oldest
         else read32 mem FIRMWARE_VERSION_PTR) % 4294967296 := by
  have hv : FIRMWARE_VERSION_PTR = 0x2B404 := FIRMWARE_VERSION_PTR_eq
  have hs : FIRMWARE_SIZE_PTR = 0x2B400 := FIRMWARE_SIZE_PTR_eq
  have hst : FIRMWARE_STORAGE_PTR = 0x2BC00 := FIRMWARE_STORAGE_PTR_eq
  have hmsg : FIRMWARE_RELEASE_MSG_PTR = 0x2B408 := FIRMWARE_RELEASE_MSG_PTR_eq
  have hpre : (handle_update ve vd sha oldest inp mem).memPreDecrypt =
      (load_data inp.payload 0 FIRMWARE_STORAGE_PTR inp.size
        (write_release_msg inp.msgBuf (inp.relMsg.length + 1)
          (flash_write_word inp.size FIRMWARE_SIZE_PTR
            (flash_write_word
              (if inp.version ≠ 0 then inp.version
               else if read32 mem FIRMWARE_VERSION_PTR = 0xFFFFFFFF then oldest
                 else read32 mem FIRMWARE_VERSION_PTR)
              FIRMWARE_VERSION_PTR (flash_erase_page FIRMWARE_METADATA_PTR mem)))).1).1 := by
    simp only [handle_update]
    rw [if_neg hacc]
  rw [hpre]
  rw [read32_congr FIRMWARE_VERSION_PTR
    (fun k hk => load_data_preserve_below _ _ _ _ _ _ (by omega))]
  rw [read32_congr FIRMWARE_VERSION_PTR
    (fun k hk => write_release_msg_preserve_below _ _ _ _ (by omega))]
  rw [read32_congr FIRMWARE_VERSION_PTR
    (fun k hk => flash_write_word_outside _ _ _ _ (Or.inr (by omega)))]
  exact read32_flash_write_word_self _ _ _

/-- C2 (amended): for every update transaction with candidate version v and
resolved current version (erased sentinel 0xFFFFFFFF read as the configured
oldest baseline, itself a 32-bit value): if v = 0 the stored version as of
completion of the payload load is still the resolved current version; if
0 < v < current the update is rejected, memory is bitwise unchanged and the
whole trace is the acknowledgment plus the bad-status byte; if v is nonzero
and v ≥ current the update proceeds and the stored version as of completion
of the payload load — immediately before the terminal integrity step — is v.
(The original claim, stated over the final memory, fails: see the
counterexample.) -/
theorem handle_update_version_policy (ve vd : CbcClass)
    (sha : (Nat → Nat) → Nat → Nat → Nat) (oldest : Nat) (inp : UpdateInput) (mem : Mem)
    (holdest : oldest < 4294967296) :
    (inp.version = 0 →
      read32 (handle_update ve vd sha oldest inp mem).memPreDecrypt FIRMWARE_VERSION_PTR =
        (if read32 mem FIRMWARE_VERSION_PTR = 0xFFFFFFFF then oldest
         else read32 mem FIRMWARE_VERSION_PTR)) ∧
    (inp.version ≠ 0 →
      inp.version < (if read32 mem FIRMWARE_VERSION_PTR = 0xFFFFFFFF then oldest
        else read32 mem FIRMWARE_VERSION_PTR) →
      (handle_update ve vd sha oldest inp mem).mem = mem ∧
      (handle_update ve vd sha oldest inp mem).events =
        [Event.sendb 0x55, Event.sendb FRAME_BAD]) ∧
    (inp.version ≠ 0 →
      (if read32 mem FIRMWARE_VERSION_PTR = 0xFFFFFFFF then oldest
        else read32 mem FIRMWARE_VERSION_PTR) ≤ inp.version →
      read32 (handle_update ve vd sha oldest inp mem).memPreDecrypt FIRMWARE_VERSION_PTR =
        inp.version) := by
  refine ⟨?_, ?_, ?_⟩
  · intro h0
    have hacc : ¬(inp.version ≠ 0 ∧ inp.version <
        (if read32 mem FIRMWARE_VERSION_PTR = 0xFFFFFFFF then oldest
         else read32 mem FIRMWARE_VERSION_PTR)) := fun hc => hc.1 h0
    rw [handle_update_accept_version_read ve vd sha oldest inp mem hacc, if_neg (by simp [h0])]
    apply Nat.mod_eq_of_lt
    split
    · exact holdest
    · exact read32_lt mem FIRMWARE_VERSION_PTR
  · intro hnz hlt
    have hu : handle_update ve vd sha oldest inp mem =
        ⟨mem, mem, [Event.sendb 0x55, Event.sendb FRAME_BAD], none, none⟩ := by
      simp only [handle_update]
      rw [if_pos ⟨hnz, hlt⟩]
    rw [hu]
    exact ⟨rfl, rfl⟩
  · intro hnz hge
    have hacc : ¬(inp.version ≠ 0 ∧ inp.version <
        (if read32 mem FIRMWARE_VERSION_PTR = 0xFFFFFFFF then oldest
         else read32 mem FIRMWARE_VERSION_PTR)) := fun hc => absurd hge (by omega)
    rw [handle_update_accept_version_read ve vd sha oldest inp mem hacc, if_pos hnz]
    exact Nat.mod_eq_of_lt (by have := inp.version_lt; omega)

/-- The candidate-version-7 input used to evaluate C2. -/
def inpV7 : UpdateInput := ⟨0, 7, 0, 0, 0, 0, [], [], fun _ => 0⟩

/-- Evaluation of C2 at a concrete input: version 7 against erased flash is
accepted and the version word reads 7 once the payload load completes. -/
theorem handle_update_version_policy_witness :
    read32 (handle_update cbcId cbcId shaZero 0 inpV7 memErased).memPreDecrypt
      FIRMWARE_VERSION_PTR = inpV7.version :=
  (handle_update_version_policy cbcId cbcId shaZero 0 inpV7 memErased
    (by decide)).2.2 (by decide) (by decide)

/-- C2 counterexample: with fully erased flash (stored version reads as the
sentinel, resolving to oldest = 1), candidate version 1 with size 0 is
accepted — so per the claim the stored version should become 1 — but after
the transaction completes the stored version word reads 0: the terminal
integrity step decrypts in place at the truncated FIRMWARE_DATA_PTR address
(0) for a length read out of boot-RAM memory (0xFFFFFFFF here), overwriting
the freshly written version slot. -/
theorem handle_update_version_clobbered_counterexample :
    inpV1.version = 1 ∧
    (if read32 memErased FIRMWARE_VERSION_PTR = 0xFFFFFFFF then 1
     else read32 memErased FIRMWARE_VERSION_PTR) = 1 ∧
    read32 (handle_update cbcZero cbcZero shaZero 1 inpV1 memErased).mem
      FIRMWARE_VERSION_PTR = 0 := by
  have hv : FIRMWARE_VERSION_PTR = 0x2B404 := FIRMWARE_VERSION_PTR_eq
  have hs : FIRMWARE_SIZE_PTR = 0x2B400 := FIRMWARE_SIZE_PTR_eq
  have hst : FIRMWARE_STORAGE_PTR = 0x2BC00 := FIRMWARE_STORAGE_PTR_eq
  have hmsg : FIRMWARE_RELEASE_MSG_PTR = 0x2B408 := FIRMWARE_RELEASE_MSG_PTR_eq
  have hmeta : FIRMWARE_METADATA_PTR = 0x2B400 := FIRMWARE_METADATA_PTR_eq
  have hdata : FIRMWARE_DATA_PTR = 0 := FIRMWARE_DATA_PTR_eq
  have hboot : FIRMWARE_BOOT_PTR = 0x20004000 := rfl
  have hp : FLASH_PAGE_SIZE = 1024 := rfl
  refine ⟨by decide, by decide, ?_⟩
  have hacc : ¬(inpV1.version ≠ 0 ∧ inpV1.version <
      (if read32 memErased FIRMWARE_VERSION_PTR = 0xFFFFFFFF then 1
       else read32 memErased FIRMWARE_VERSION_PTR)) := by decide
  have hmem0 : (handle_update cbcZero cbcZero shaZero 1 inpV1 memErased).mem =
      (decrypt_firmware cbcZero cbcZero shaZero FIRMWARE_BOOT_PTR FIRMWARE_SIZE_PTR
        (load_data inpV1.payload 0 FIRMWARE_STORAGE_PTR inpV1.size
          (write_release_msg inpV1.msgBuf (inpV1.relMsg.length + 1)
            (flash_write_word inpV1.size FIRMWARE_SIZE_PTR
              (flash_write_word
                (if inpV1.version ≠ 0 then inpV1.version
                 else if read32 memErased FIRMWARE_VERSION_PTR = 0xFFFFFFFF then 1
                   else read32 memErased FIRMWARE_VERSION_PTR)
                FIRMWARE_VERSION_PTR
                (flash_erase_page FIRMWARE_METADATA_PTR memErased)))).1).1).1 := by
    simp only [handle_update]
    rw [if_neg hacc]
  have hver : (if inpV1.version ≠ 0 then inpV1.version
      else if read32 memErased FIRMWARE_VERSION_PTR = 0xFFFFFFFF then 1
        else read32 memErased FIRMWARE_VERSION_PTR) = 1 := by decide
  have hsz : inpV1.size = 0 := by decide
  have hlen : inpV1.relMsg.length + 1 = 1 := by decide
  rw [hmem0, hver, hsz, hlen, load_data_zero_fst]
  have hrm : (write_release_msg inpV1.msgBuf 1
      (flash_write_word 0 FIRMWARE_SIZE_PTR
        (flash_write_word 1 FIRMWARE_VERSION_PTR
          (flash_erase_page FIRMWARE_METADATA_PTR memErased)))).1 =
      flash_write inpV1.msgBuf FIRMWARE_RELEASE_MSG_PTR 1
        (flash_write_word 0 FIRMWARE_SIZE_PTR
          (flash_write_word 1 FIRMWARE_VERSION_PTR
            (flash_erase_page FIRMWARE_METADATA_PTR memErased))) := by
    unfold write_release_msg
    rw [if_neg (by omega)]
    have hr4 : roundUp4 1 / 4 = 1 := by decide
    simp only [hr4]
  rw [hrm]
  have himgsz : read32
      (flash_write inpV1.msgBuf FIRMWARE_RELEASE_MSG_PTR 1
        (flash_write_word 0 FIRMWARE_SIZE_PTR
          (flash_write_word 1 FIRMWARE_VERSION_PTR
            (flash_erase_page FIRMWARE_METADATA_PTR memErased))))
      (FIRMWARE_BOOT_PTR + FIRMWARE_SIZE_PTR) = 4294967295 := by
    rw [read32_congr _ (fun k hk => flash_write_outside _ _ _ _ _ (Or.inr (by omega)))]
    rw [read32_congr _ (fun k hk => flash_write_word_outside _ _ _ _ (Or.inr (by omega)))]
    rw [read32_congr _ (fun k hk => flash_write_word_outside _ _ _ _ (Or.inr (by omega)))]
    rw [read32_congr _ (fun k hk => flash_erase_page_outside _ _ _ (Or.inr (by omega)))]
    decide
  rw [decrypt_firmware_nonnull_fst _ _ _ _ _ _ (by omega), himgsz]
  have hdec : ∀ b, FIRMWARE_DATA_PTR ≤ b → b < FIRMWARE_DATA_PTR + 4294967295 →
      do_AES_decrypt cbcZero cbcZero FIRMWARE_DATA_PTR 4294967295
        (flash_write inpV1.msgBuf FIRMWARE_RELEASE_MSG_PTR 1
          (flash_write_word 0 FIRMWARE_SIZE_PTR
            (flash_write_word 1 FIRMWARE_VERSION_PTR
              (flash_erase_page FIRMWARE_METADATA_PTR memErased)))) b = 0 := by
    intro b h1 h2
    unfold do_AES_decrypt
    rw [if_neg (by decide)]
    simp [cbcZero, h1, h2]
  unfold read32
  rw [hdec _ (by omega) (by omega), hdec _ (by omega) (by omega),
    hdec _ (by omega) (by omega), hdec _ (by omega) (by omega)]

/-- C3: evaluation at a concrete accepted update (candidate version 1, size 0,
erased flash): after the payload load, `handle_update` invokes
`decrypt_firmware` with the boot-RAM base FIRMWARE_BOOT_PTR as the image
argument and the address constant FIRMWARE_SIZE_PTR as the size argument —
not the firmware payload region address, and not the 4-byte size received
in step 3 (which is 0 here, while the passed constant is 0x2B400). -/
theorem handle_update_decrypt_call_args :
    (handle_update cbcId cbcId shaZero 1 inpV1 memErased).decryptArgs =
      some (FIRMWARE_BOOT_PTR, FIRMWARE_SIZE_PTR) ∧
    FIRMWARE_BOOT_PTR ≠ FIRMWARE_STORAGE_PTR ∧
    FIRMWARE_SIZE_PTR ≠ inpV1.size := by
  refine ⟨?_, by decide, by decide⟩
  have hacc : ¬(inpV1.version ≠ 0 ∧ inpV1.version <
      (if read32 memErased FIRMWARE_VERSION_PTR = 0xFFFFFFFF then 1
       else read32 memErased FIRMWARE_VERSION_PTR)) := by decide
  simp only [handle_update]
  rw [if_neg hacc]
